import Mathlib

/-!
Verification of the yield-curve simulation core (`src/app.py`).

The two transforms `simulate_yield_curve` and `reverse_engineer_factors`
are embedded shallowly:

* Python floats are idealised as exact rationals extended with the
  special values `+inf`, `-inf` and `nan` (type `PF`); arithmetic,
  comparison, `max`/`min` and `round(x, n)` follow Python's semantics on
  these symbolic values (`round` with an `ndigits` argument returns the
  input unchanged on non-finite floats).
* `round(x, n)` on finite values is modelled as exact decimal rounding
  half-to-even (Python's documented rounding mode), `pround`.
* A curve (Python dict keyed by the eight grid tenors, built by the app
  in grid order) is a partial map `Tenor → Option PF`; iteration order is
  the grid insertion order, as constructed by the app.
* A missing dict key raises `KeyError`; `sklearn`'s `LinearRegression.fit`
  raises `ValueError` on non-finite input.  Fallible code returns
  `Except Err _`.
* `LinearRegression().fit(x, y).coef_[0]` (ordinary least squares with
  intercept, one predictor) is the centered slope `Σ(x-x̄)(y-ȳ)/Σ(x-x̄)²`;
  on a single sample the centered system is all zeroes and the minimum
  norm solution is `0`, covered by the `Σ(x-x̄)² = 0` branch.
-/

/-- An idealised Python float: an exact rational or one of the special
values `nan`, `-inf`, `+inf`. -/
inductive PF where
  | nan : PF
  | ninf : PF
  | pinf : PF
  | fin : ℚ → PF
deriving DecidableEq

/-- Python float addition on `PF`. -/
def PF.add : PF → PF → PF
  | .nan, _ => .nan
  | _, .nan => .nan
  | .pinf, .ninf => .nan
  | .ninf, .pinf => .nan
  | .pinf, _ => .pinf
  | _, .pinf => .pinf
  | .ninf, _ => .ninf
  | _, .ninf => .ninf
  | .fin a, .fin b => .fin (a + b)

/-- Python float subtraction on `PF`. -/
def PF.sub : PF → PF → PF
  | .nan, _ => .nan
  | _, .nan => .nan
  | .pinf, .pinf => .nan
  | .ninf, .ninf => .nan
  | .pinf, _ => .pinf
  | .ninf, _ => .ninf
  | .fin _, .pinf => .ninf
  | .fin _, .ninf => .pinf
  | .fin a, .fin b => .fin (a - b)

/-- Python float multiplication on `PF`. -/
def PF.mul : PF → PF → PF
  | .nan, _ => .nan
  | _, .nan => .nan
  | .pinf, .pinf => .pinf
  | .pinf, .ninf => .ninf
  | .ninf, .pinf => .ninf
  | .ninf, .ninf => .pinf
  | .pinf, .fin b => if 0 < b then .pinf else if b < 0 then .ninf else .nan
  | .fin a, .pinf => if 0 < a then .pinf else if a < 0 then .ninf else .nan
  | .ninf, .fin b => if 0 < b then .ninf else if b < 0 then .pinf else .nan
  | .fin a, .ninf => if 0 < a then .ninf else if a < 0 then .pinf else .nan
  | .fin a, .fin b => .fin (a * b)

instance : Add PF := ⟨PF.add⟩
instance : Sub PF := ⟨PF.sub⟩
instance : Mul PF := ⟨PF.mul⟩

/-- Python float strict comparison `a < b` (`False` whenever `nan` is
involved). -/
def PF.lt : PF → PF → Bool
  | .nan, _ => false
  | _, .nan => false
  | .ninf, .ninf => false
  | .ninf, _ => true
  | _, .ninf => false
  | .pinf, _ => false
  | .fin _, .pinf => true
  | .fin a, .fin b => a < b

/-- Python `max(a, b)`: returns `b` if `b > a` else `a`. -/
def PF.pymax (a b : PF) : PF := if PF.lt a b then b else a

/-- Python `min(a, b)`: returns `b` if `b < a` else `a`. -/
def PF.pymin (a b : PF) : PF := if PF.lt b a then b else a

/-- Round a rational to the nearest integer, ties to even (Python's
rounding mode for `round`). -/
def rhe (x : ℚ) : ℤ :=
  if 2 * (x - ⌊x⌋) < 1 then ⌊x⌋
  else if 1 < 2 * (x - ⌊x⌋) then ⌊x⌋ + 1
  else if ⌊x⌋ % 2 = 0 then ⌊x⌋ else ⌊x⌋ + 1

/-- Python `round(x, n)` on a finite value: round to `n` decimal digits,
ties to even. -/
def pround (n : ℕ) (x : ℚ) : ℚ := (rhe (x * 10 ^ n) : ℚ) / 10 ^ n

/-- Python `round(x, n)` on `PF`: non-finite values are returned
unchanged. -/
def PF.round (n : ℕ) : PF → PF
  | .fin q => .fin (pround n q)
  | x => x

/-- The eight tenors of the fixed grid. -/
inductive Tenor where
  | t3M | t6M | t1Y | t2Y | t3Y | t4Y | t5Y | t7Y
deriving DecidableEq

/-- `tenor_to_years`: the fixed tenor-to-year-fraction table of the
source (`src/app.py`, lines 8-17 and 46-55; both copies are identical). -/
def tenor_to_years : Tenor → ℚ
  | .t3M => 1/4
  | .t6M => 1/2
  | .t1Y => 1
  | .t2Y => 2
  | .t3Y => 3
  | .t4Y => 4
  | .t5Y => 5
  | .t7Y => 7

/-- The grid in its natural (insertion) order. -/
def gridOrder : List Tenor := [.t3M, .t6M, .t1Y, .t2Y, .t3Y, .t4Y, .t5Y, .t7Y]

/-- A curve: a Python dict keyed by grid tenors.  A key maps to `none`
when the dict omits the tenor.  Iteration order is the grid insertion
order used by the app when it builds the dict. -/
def Curve : Type := Tenor → Option PF

/-- The items of a curve dict, in iteration order. -/
def curveItems (c : Curve) : List (Tenor × PF) :=
  gridOrder.filterMap (fun t => (c t).map (fun r => (t, r)))

/-- Errors the embedded code can raise: a dict lookup of a missing key
(`KeyError`) or `sklearn`'s rejection of non-finite regression input
(`ValueError`). -/
inductive Err where
  | keyError
  | valueError
deriving DecidableEq

/-- Python dict lookup `c[t]`: `KeyError` when the key is absent. -/
def dget (c : Curve) (t : Tenor) : Except Err PF :=
  match c t with
  | some v => .ok v
  | none => .error .keyError

/-- `simulate_yield_curve` (`src/app.py`, lines 19-42).  Looks up the
pivot rate (raising `KeyError` when the pivot is missing), then maps
over the base dict's items: the pivot gets `pivot_rate + shift_value`,
short-end tenors get `original_rate + max(shift_value + delta_years *
short_end_factor, short_end_cap)`, and the remaining tenors get
`original_rate + min(shift_value + delta_years * long_end_factor,
long_end_cap)`; every rate is rounded to 6 digits. -/
def simulate_yield_curve (base_curve : Curve) (pivot_tenor : Tenor)
    (shift_value short_end_factor long_end_factor short_end_cap long_end_cap : PF) :
    Except Err (List (Tenor × PF)) :=
  match base_curve pivot_tenor with
  | none => .error .keyError
  | some pivot_rate =>
    .ok ((curveItems base_curve).map (fun tr =>
      let t_year := tenor_to_years tr.1
      let delta_years := t_year - tenor_to_years pivot_tenor
      let new_rate :=
        if tr.1 = pivot_tenor then pivot_rate + shift_value
        else if t_year < tenor_to_years pivot_tenor then
          tr.2 + PF.pymax (shift_value + .fin delta_years * short_end_factor) short_end_cap
        else
          tr.2 + PF.pymin (shift_value + .fin delta_years * long_end_factor) long_end_cap
      (tr.1, PF.round 6 new_rate)))

/-- A total curve of finite rates, as a curve dict. -/
def totalCurve (b : Tenor → ℚ) : Curve := fun t => some (.fin (b t))

/-- A possibly-partial curve of finite rates, as a curve dict. -/
def pcurve (f : Tenor → Option ℚ) : Curve := fun t => (f t).map .fin

/-- Lookup of a tenor key in an item list (Python dict indexing on the
result list of `simulate_yield_curve`). -/
def lookupT (l : List (Tenor × PF)) (t : Tenor) : Option PF :=
  match l with
  | [] => none
  | kv :: rest => if kv.1 = t then some kv.2 else lookupT rest t

/-- Rate of the curve returned by a fallible transform at a tenor. -/
def simRate (r : Except Err (List (Tenor × PF))) (t : Tenor) : Option PF :=
  r.toOption.bind (fun l => lookupT l t)

/-- Sequence a list of fallible results, stopping at the first error (the
order in which a Python loop of fallible statements raises). -/
def seqE {α : Type} : List (Except Err α) → Except Err (List α)
  | [] => .ok []
  | .error z :: _ => .error z
  | .ok a :: es =>
    match seqE es with
    | .error z => .error z
    | .ok bs => .ok (a :: bs)

/-- Slope of ordinary least squares with intercept over one predictor, as
computed by `LinearRegression().fit(x, y).coef_[0]`: the centered slope
`Σ(x-x̄)(y-ȳ) / Σ(x-x̄)²`.  On a single sample the centered system is all
zeroes and `lstsq`'s minimum-norm solution is `0`, covered by the
`Σ(x-x̄)² = 0` branch (which also covers the empty list). -/
def olsSlope (pts : List (ℚ × ℚ)) : ℚ :=
  let n : ℚ := pts.length
  let xbar := (pts.map Prod.fst).sum / n
  let ybar := (pts.map Prod.snd).sum / n
  let sxx := (pts.map (fun q => (q.1 - xbar) ^ 2)).sum
  let sxy := (pts.map (fun q => (q.1 - xbar) * (q.2 - ybar))).sum
  if sxx = 0 then 0 else sxy / sxx

/-- The finite value of a `PF`, when it is finite. -/
def finQ : PF → Option ℚ
  | .fin q => some q
  | _ => none

/-- Sequence a list of optional values, `none` as soon as one is `none`. -/
def seqO {α : Type} : List (Option α) → Option (List α)
  | [] => some []
  | none :: _ => none
  | some a :: os => (seqO os).map (fun bs => a :: bs)

/-- One `defaultdict(int)` increment: bump the count of `v`, appending a
fresh key (count 1) when absent.  Insertion order of keys is preserved,
as for a Python dict. -/
def bump {α : Type} [DecidableEq α] (m : List (α × ℕ)) (v : α) : List (α × ℕ) :=
  match m with
  | [] => [(v, 1)]
  | kc :: rest => if kc.1 = v then (kc.1, kc.2 + 1) :: rest else kc :: bump rest v

/-- The `defaultdict(int)` occurrence counter of a list of values, keys
in first-occurrence order. -/
def counter {α : Type} [DecidableEq α] (l : List α) : List (α × ℕ) :=
  l.foldl bump []

/-- `next((val for val, count in m.items() if count > 1), default)`
without the default: the first key whose count exceeds one. -/
def firstOver1 {α : Type} [DecidableEq α] (m : List (α × ℕ)) : Option α :=
  (m.find? (fun kc => 1 < kc.2)).map Prod.fst

/-- The record returned by `reverse_engineer_factors`. -/
structure RecoveredFactors where
  pivot_tenor : Tenor
  shift_value : PF
  short_end_factor : PF
  long_end_factor : PF
  short_end_cap : PF
  long_end_cap : PF
deriving DecidableEq

/-- `reverse_engineer_factors` (`src/app.py`, lines 45-131).  Reads the
two pivot rates (`KeyError` when absent), takes their difference as the
shift, collects `(delta_years, implied_change)` observations over the
non-pivot items of the base dict (`KeyError` when the simulated dict
misses one of those keys), fits a least-squares slope per side (empty
side: no fit, factor `0.0`; `sklearn` raises `ValueError` on non-finite
fit input), counts the 8-digit-rounded `actual_change` values per side
and takes the first repeat as the cap (sentinels `-inf` / `+inf`
otherwise), and rounds every numeric output to 6 digits.  The
`predicted_change` computed at lines 106-108 of the source is never used
and is omitted. -/
def reverse_engineer_factors (base_curve simulated_curve : Curve) (pivot_tenor : Tenor) :
    Except Err RecoveredFactors :=
  let pivot_year := tenor_to_years pivot_tenor
  match base_curve pivot_tenor with
  | none => .error .keyError
  | some base_pivot_rate =>
  match simulated_curve pivot_tenor with
  | none => .error .keyError
  | some sim_pivot_rate =>
  let shift_value := sim_pivot_rate - base_pivot_rate
  let nonPivot := (curveItems base_curve).filter (fun tr => tr.1 ≠ pivot_tenor)
  match seqE (nonPivot.map (fun tr => dget simulated_curve tr.1)) with
  | .error z => .error z
  | .ok simRates =>
  let rows := nonPivot.zip simRates
  let shortRows := rows.filter (fun r => tenor_to_years r.1.1 < pivot_year)
  let longRows := rows.filter (fun r => ¬ tenor_to_years r.1.1 < pivot_year)
  let toPt := fun (r : (Tenor × PF) × PF) =>
    (finQ (r.2 - (base_pivot_rate + shift_value))).map
      (fun y => (tenor_to_years r.1.1 - pivot_year, y))
  match seqO (shortRows.map toPt) with
  | none => .error .valueError
  | some shortPts =>
  match seqO (longRows.map toPt) with
  | none => .error .valueError
  | some longPts =>
  let short_end_factor := olsSlope shortPts
  let long_end_factor := olsSlope longPts
  let changes := rows.map (fun r => (tenor_to_years r.1.1, r.2 - base_pivot_rate))
  let shortVals := (changes.filter (fun kv => kv.1 < pivot_year)).map (fun kv => PF.round 8 kv.2)
  let longVals := (changes.filter (fun kv => pivot_year < kv.1)).map (fun kv => PF.round 8 kv.2)
  let short_end_cap := (firstOver1 (counter shortVals)).getD .ninf
  let long_end_cap := (firstOver1 (counter longVals)).getD .pinf
  .ok
    { pivot_tenor := pivot_tenor
      shift_value := PF.round 6 shift_value
      short_end_factor := PF.round 6 (.fin short_end_factor)
      long_end_factor := PF.round 6 (.fin long_end_factor)
      short_end_cap := PF.round 6 short_end_cap
      long_end_cap := PF.round 6 long_end_cap }

/-- Grid tenors strictly short of the pivot, in grid order. -/
def shortTenors (p : Tenor) : List Tenor :=
  gridOrder.filter (fun t => tenor_to_years t < tenor_to_years p)

/-- Grid tenors strictly long of the pivot, in grid order. -/
def longTenors (p : Tenor) : List Tenor :=
  gridOrder.filter (fun t => tenor_to_years p < tenor_to_years t)

/-- The regression response computed by the source at line 76:
`sim_rate - (base_pivot_rate + shift_value)` (note: relative to the
*pivot's* base rate, not the tenor's own). -/
def impliedY (b s : Tenor → ℚ) (p t : Tenor) : ℚ := s t - (b p + (s p - b p))

/-- Short-side regression observations for total finite curves. -/
def shortPtsQ (b s : Tenor → ℚ) (p : Tenor) : List (ℚ × ℚ) :=
  (shortTenors p).map (fun t => (tenor_to_years t - tenor_to_years p, impliedY b s p t))

/-- Long-side regression observations for total finite curves. -/
def longPtsQ (b s : Tenor → ℚ) (p : Tenor) : List (ℚ × ℚ) :=
  (longTenors p).map (fun t => (tenor_to_years t - tenor_to_years p, impliedY b s p t))

/-- Short-side 8-digit-rounded `actual_change` values, in grid order:
`round(simulated_curve[t] - base_curve[pivot_tenor], 8)` over the tenors
short of the pivot. -/
def shortCapVals (b s : Tenor → ℚ) (p : Tenor) : List PF :=
  (shortTenors p).map (fun t => .fin (pround 8 (s t - b p)))

/-- Long-side 8-digit-rounded `actual_change` values, in grid order. -/
def longCapVals (b s : Tenor → ℚ) (p : Tenor) : List PF :=
  (longTenors p).map (fun t => .fin (pround 8 (s t - b p)))

/-- The record `reverse_engineer_factors` produces on two total curves of
finite rates, field by field. -/
def recoverTotal (b s : Tenor → ℚ) (p : Tenor) : RecoveredFactors :=
  { pivot_tenor := p
    shift_value := .fin (pround 6 (s p - b p))
    short_end_factor := .fin (pround 6 (olsSlope (shortPtsQ b s p)))
    long_end_factor := .fin (pround 6 (olsSlope (longPtsQ b s p)))
    short_end_cap := PF.round 6 ((firstOver1 (counter (shortCapVals b s p))).getD .ninf)
    long_end_cap := PF.round 6 ((firstOver1 (counter (longCapVals b s p))).getD .pinf) }

/-- A curve dict built from a result item list (the hand-off between the
two transforms in recovery mode). -/
def curveOfItems (l : List (Tenor × PF)) : Curve := fun t => lookupT l t

/-- Whether a fallible transform returned a result. -/
def isOkE {α : Type} : Except Err α → Bool
  | .ok _ => true
  | .error _ => false

/-- The `shift_value` field of a recovery result. -/
def recShiftV (r : Except Err RecoveredFactors) : Option PF :=
  r.toOption.map (fun x => x.shift_value)

/-- The `short_end_factor` field of a recovery result. -/
def recFacS (r : Except Err RecoveredFactors) : Option PF :=
  r.toOption.map (fun x => x.short_end_factor)

/-- The `long_end_factor` field of a recovery result. -/
def recFacL (r : Except Err RecoveredFactors) : Option PF :=
  r.toOption.map (fun x => x.long_end_factor)

/-- The `short_end_cap` field of a recovery result. -/
def recCapS (r : Except Err RecoveredFactors) : Option PF :=
  r.toOption.map (fun x => x.short_end_cap)

/-- The `long_end_cap` field of a recovery result. -/
def recCapL (r : Except Err RecoveredFactors) : Option PF :=
  r.toOption.map (fun x => x.long_end_cap)

/-- The default base curve offered by the app (`src/app.py`, lines
161-170); used as a concrete instance. -/
def defaultBase : Tenor → ℚ
  | .t3M => 3/100
  | .t6M => 31/1000
  | .t1Y => 32/1000
  | .t2Y => 34/1000
  | .t3Y => 36/1000
  | .t4Y => 38/1000
  | .t5Y => 41/1000
  | .t7Y => 45/1000

/-- Number of occurrences of a value in a list. -/
def countOcc {α : Type} [DecidableEq α] (v : α) (l : List α) : ℕ :=
  (l.filter (fun x => x = v)).length

/-- The list of first occurrences of a list's values, in order (the key
order of a Python dict built by counting the list). -/
def firstDedup {α : Type} [DecidableEq α] : List α → List α
  | [] => []
  | a :: l => a :: firstDedup (l.filter (fun x => x ≠ a))
termination_by l => l.length
decreasing_by
  simp only [List.length_cons]
  exact Nat.lt_succ_of_le (List.length_filter_le _ _)

/-- From the spec's cap-estimation wording: the first value, in the
list's iteration order, that occurs more than once; `none` when no value
repeats. -/
def firstRepeated {α : Type} [DecidableEq α] (l : List α) : Option α :=
  l.find? (fun v => 1 < countOcc v l)

/-- All-zero base curve, used as a concrete instance. -/
def zeroCurve : Tenor → ℚ := fun _ => 0

/-- A concrete simulated curve whose two short-end actual changes agree
in the 7th decimal digit. -/
def c3sim : Tenor → ℚ
  | .t3M => 34/100000000
  | .t6M => 34/100000000
  | .t1Y => 1/10
  | .t2Y => 0
  | .t3Y => 2/10
  | .t4Y => 3/10
  | .t5Y => 4/10
  | .t7Y => 5/10

/-- The base curve of the C2 counterexample: the default curve with the
6M rate flattened to the 3M rate. -/
def c2base : Tenor → ℚ
  | .t3M => 3/100
  | .t6M => 3/100
  | .t1Y => 32/1000
  | .t2Y => 34/1000
  | .t3Y => 36/1000
  | .t4Y => 38/1000
  | .t5Y => 41/1000
  | .t7Y => 45/1000

/-- The default base curve with the 3M grid tenor omitted. -/
def c4missing : Tenor → Option ℚ :=
  fun t => if t = .t3M then none else some (defaultBase t)

@[simp] theorem PF.add_fin (a b : ℚ) : (PF.fin a) + (PF.fin b) = PF.fin (a + b) := rfl

@[simp] theorem PF.sub_fin (a b : ℚ) : (PF.fin a) - (PF.fin b) = PF.fin (a - b) := rfl

@[simp] theorem PF.mul_fin (a b : ℚ) : (PF.fin a) * (PF.fin b) = PF.fin (a * b) := rfl

@[simp] theorem PF.round_fin (n : ℕ) (q : ℚ) : PF.round n (.fin q) = .fin (pround n q) := rfl

@[simp] theorem PF.pymax_fin (a b : ℚ) : PF.pymax (.fin a) (.fin b) = .fin (max a b) := by
  rcases le_or_lt b a with h | h
  · simp [PF.pymax, PF.lt, not_lt.mpr h, max_eq_left h]
  · simp [PF.pymax, PF.lt, h, max_eq_right h.le]

@[simp] theorem PF.pymin_fin (a b : ℚ) : PF.pymin (.fin a) (.fin b) = .fin (min a b) := by
  rcases le_or_lt a b with h | h
  · simp [PF.pymin, PF.lt, not_lt.mpr h, min_eq_left h]
  · simp [PF.pymin, PF.lt, h, min_eq_right h.le]

/-- Closed form of `simulate_yield_curve` on a total curve of finite
rates: per-tenor branch on pivot / short end / long end. -/
theorem simulate_total_eq (b : Tenor → ℚ) (p : Tenor)
    (sv sef lef sec lec : PF) :
    simulate_yield_curve (totalCurve b) p sv sef lef sec lec =
      .ok (gridOrder.map (fun t => (t, PF.round 6 (
        if t = p then .fin (b p) + sv
        else if tenor_to_years t < tenor_to_years p then
          .fin (b t) + PF.pymax (sv + .fin (tenor_to_years t - tenor_to_years p) * sef) sec
        else
          .fin (b t) + PF.pymin (sv + .fin (tenor_to_years t - tenor_to_years p) * lef) lec)))) := by
  cases p <;> rfl

@[simp] theorem seqE_nil {α : Type} : seqE (α := α) [] = .ok [] := rfl

@[simp] theorem seqE_error_cons {α : Type} (z : Err) (es : List (Except Err α)) :
    seqE (.error z :: es) = .error z := rfl

@[simp] theorem seqE_ok_cons {α : Type} (a : α) (es : List (Except Err α)) :
    seqE (.ok a :: es) =
      match seqE es with
      | .error z => .error z
      | .ok bs => .ok (a :: bs) := rfl

@[simp] theorem seqO_nil {α : Type} : seqO (α := α) [] = some [] := rfl

@[simp] theorem seqO_none_cons {α : Type} (os : List (Option α)) :
    seqO (none :: os) = none := rfl

@[simp] theorem seqO_some_cons {α : Type} (a : α) (os : List (Option α)) :
    seqO (some a :: os) = (seqO os).map (fun bs => a :: bs) := rfl

/-- Closed form of `reverse_engineer_factors` on two total curves of
finite rates. -/
theorem recover_total_eq (b s : Tenor → ℚ) (p : Tenor) :
    reverse_engineer_factors (totalCurve b) (totalCurve s) p = .ok (recoverTotal b s p) := by
  cases p <;>
    · simp only [reverse_engineer_factors, recoverTotal, curveItems, totalCurve, gridOrder,
        tenor_to_years, dget, seqE, seqO, shortTenors, longTenors, shortPtsQ, longPtsQ,
        impliedY, shortCapVals, longCapVals, finQ, List.filterMap, List.filter, List.map,
        List.zip, List.zipWith, Option.map, PF.sub_fin, PF.add_fin]
      norm_num

theorem rhe_cases (x : ℚ) : rhe x = ⌊x⌋ ∨ rhe x = ⌊x⌋ + 1 := by
  unfold rhe
  split_ifs <;> simp

theorem abs_rhe_sub_le (x : ℚ) : |(rhe x : ℚ) - x| ≤ 1/2 := by
  have h1 : (⌊x⌋ : ℚ) ≤ x := Int.floor_le x
  have h2 : x < ⌊x⌋ + 1 := Int.lt_floor_add_one x
  unfold rhe
  split_ifs with ha hb hc <;> rw [abs_le] <;> constructor <;> push_cast <;> linarith

theorem rhe_mono {x y : ℚ} (h : x ≤ y) : rhe x ≤ rhe y := by
  have hf : ⌊x⌋ ≤ ⌊y⌋ := Int.floor_le_floor h
  rcases lt_or_eq_of_le hf with hlt | heq
  · have hx : rhe x ≤ ⌊x⌋ + 1 := by rcases rhe_cases x with h' | h' <;> omega
    have hy : ⌊y⌋ ≤ rhe y := by rcases rhe_cases y with h' | h' <;> omega
    omega
  · unfold rhe
    rw [← heq]
    split_ifs <;> first | omega | (exfalso; linarith)

theorem pround_mono (n : ℕ) {x y : ℚ} (h : x ≤ y) : pround n x ≤ pround n y := by
  unfold pround
  have hp : (0:ℚ) < 10 ^ n := by positivity
  have h2 : rhe (x * 10 ^ n) ≤ rhe (y * 10 ^ n) :=
    rhe_mono (by exact mul_le_mul_of_nonneg_right h hp.le)
  have h3 : ((rhe (x * 10 ^ n) : ℤ) : ℚ) ≤ ((rhe (y * 10 ^ n) : ℤ) : ℚ) := by exact_mod_cast h2
  exact (div_le_div_iff_of_pos_right hp).mpr h3

theorem abs_pround_sub_le (n : ℕ) (x : ℚ) : |pround n x - x| ≤ 1 / (2 * 10 ^ n) := by
  unfold pround
  have hp : (0:ℚ) < 10 ^ n := by positivity
  have h1 : |(rhe (x * 10 ^ n) : ℚ) - x * 10 ^ n| ≤ 1/2 := abs_rhe_sub_le _
  have h2 : (rhe (x * 10 ^ n) : ℚ) / 10 ^ n - x = ((rhe (x * 10 ^ n) : ℚ) - x * 10 ^ n) / 10 ^ n := by
    field_simp
    ring
  rw [h2, abs_div, abs_of_pos hp]
  rw [div_le_div_iff₀ (by positivity) (by positivity)]
  calc |(rhe (x * 10 ^ n) : ℚ) - x * 10 ^ n| * (2 * 10 ^ n)
      ≤ (1/2) * (2 * 10 ^ n) := by
        exact mul_le_mul_of_nonneg_right h1 (by positivity)
    _ = 1 * 10 ^ n := by ring

/-- Per-tenor closed form of the curve returned by
`simulate_yield_curve` on a total curve of finite rates. -/
theorem simRate_total (b : Tenor → ℚ) (p t : Tenor) (sv sef lef sec lec : PF) :
    simRate (simulate_yield_curve (totalCurve b) p sv sef lef sec lec) t =
      some (PF.round 6 (
        if t = p then .fin (b p) + sv
        else if tenor_to_years t < tenor_to_years p then
          .fin (b t) + PF.pymax (sv + .fin (tenor_to_years t - tenor_to_years p) * sef) sec
        else
          .fin (b t) + PF.pymin (sv + .fin (tenor_to_years t - tenor_to_years p) * lef) lec)) := by
  rw [simRate, simulate_total_eq]
  cases t <;> simp [gridOrder, lookupT, Except.toOption]

/-- C1: for every base curve defining a rate at each of the eight grid
tenors and every pivot in the grid, the simulated curve's rate at the
pivot tenor is `round(base[pivot] + shiftValue, 6)`; at every tenor with
year-fraction strictly below the pivot's it is `round(base[t] +
max(shiftValue + (ty - py) * shortEndFactor, shortEndCap), 6)`; and at
every tenor strictly above it is `round(base[t] + min(shiftValue +
(ty - py) * longEndFactor, longEndCap), 6)`.  (The year-fraction table is
injective, so the `else` branch below is exactly the tenors with `ty >
py`.) -/
theorem c1_simulate_pointwise (b : Tenor → ℚ) (p t : Tenor) (s fs fl cs cl : ℚ) :
    simRate (simulate_yield_curve (totalCurve b) p
        (.fin s) (.fin fs) (.fin fl) (.fin cs) (.fin cl)) t =
      some (.fin (pround 6 (
        if t = p then b p + s
        else if tenor_to_years t < tenor_to_years p then
          b t + max (s + (tenor_to_years t - tenor_to_years p) * fs) cs
        else
          b t + min (s + (tenor_to_years t - tenor_to_years p) * fl) cl))) := by
  rw [simRate_total]
  by_cases h1 : t = p
  · simp [h1]
  · by_cases h2 : tenor_to_years t < tenor_to_years p <;> simp [h1, h2]

/-- C6: for every base curve total over the grid and all parameter
choices (including non-finite caps), the simulated rate at the pivot is
`round(base[pivot] + shiftValue, 6)`; neither cap ever alters the pivot
rate. -/
theorem c6_pivot_exact (b : Tenor → ℚ) (p : Tenor) (sv sef lef sec lec : PF) :
    simRate (simulate_yield_curve (totalCurve b) p sv sef lef sec lec) p =
      some (PF.round 6 (.fin (b p) + sv)) := by
  rw [simRate_total]
  simp

/-- C7: for a fixed base curve, pivot and other parameters, if
`shortEndCap1 ≤ shortEndCap2` then at every short-end tenor the rate
simulated with the smaller cap is at most the rate simulated with the
larger cap. -/
theorem c7_short_cap_monotone (b : Tenor → ℚ) (p t : Tenor) (s fs fl lc ca cb : ℚ)
    (hc : ca ≤ cb) (ht : tenor_to_years t < tenor_to_years p) :
    ∃ qa qb : ℚ,
      simRate (simulate_yield_curve (totalCurve b) p
          (.fin s) (.fin fs) (.fin fl) (.fin ca) (.fin lc)) t = some (.fin qa) ∧
      simRate (simulate_yield_curve (totalCurve b) p
          (.fin s) (.fin fs) (.fin fl) (.fin cb) (.fin lc)) t = some (.fin qb) ∧
      qa ≤ qb := by
  have hne : t ≠ p := by
    intro he
    rw [he] at ht
    exact lt_irrefl _ ht
  refine ⟨pround 6 (b t + max (s + (tenor_to_years t - tenor_to_years p) * fs) ca),
          pround 6 (b t + max (s + (tenor_to_years t - tenor_to_years p) * fs) cb), ?_, ?_, ?_⟩
  · rw [simRate_total]
    simp [hne, ht]
  · rw [simRate_total]
    simp [hne, ht]
  · exact pround_mono 6 (add_le_add_left (max_le_max (le_refl _) hc) _)

/-- C7 witness: concrete instance at the default base curve, pivot 2Y,
tenor 3M, caps `-1/100 ≤ 1/100`. -/
theorem c7_short_cap_monotone_witness :
    ∃ qa qb : ℚ,
      simRate (simulate_yield_curve (totalCurve defaultBase) .t2Y
          (.fin (1/1000)) (.fin (2/1000)) (.fin (3/1000)) (.fin (-1/100)) (.fin (15/10000))) .t3M =
        some (.fin qa) ∧
      simRate (simulate_yield_curve (totalCurve defaultBase) .t2Y
          (.fin (1/1000)) (.fin (2/1000)) (.fin (3/1000)) (.fin (1/100)) (.fin (15/10000))) .t3M =
        some (.fin qb) ∧
      qa ≤ qb :=
  c7_short_cap_monotone defaultBase .t2Y .t3M (1/1000) (2/1000) (3/1000) (15/10000)
    (-1/100) (1/100) (by norm_num) (by norm_num [tenor_to_years])

/-- C5 amended: neither transform validates finiteness at its boundary
and no `InvalidInputError` exists in the code; `simulate_yield_curve`
accepts a non-finite shift and returns a result — with `shiftValue =
+inf` and the no-op cap sentinels it returns the curve mapping every
tenor to `+inf` instead of failing. -/
theorem c5_no_finiteness_validation (b : Tenor → ℚ) (p : Tenor) :
    simulate_yield_curve (totalCurve b) p .pinf (.fin 0) (.fin 0) .ninf .pinf =
      .ok (gridOrder.map (fun t => (t, .pinf))) := by
  rw [simulate_total_eq]
  congr 1
  apply List.map_congr_left
  intro t _
  split_ifs <;> rfl

/-- C5 counterexample: at the default base curve with pivot 2Y and the
non-finite parameter `shiftValue = +inf`, `simulate_yield_curve` returns
a result (rather than failing with any error), and its pivot rate is the
non-finite value `+inf`. -/
theorem c5_counterexample :
    isOkE (simulate_yield_curve (totalCurve defaultBase) .t2Y .pinf
        (.fin 0) (.fin 0) .ninf .pinf) = true ∧
    simRate (simulate_yield_curve (totalCurve defaultBase) .t2Y .pinf
        (.fin 0) (.fin 0) .ninf .pinf) .t2Y = some .pinf := by
  constructor
  · rw [simulate_total_eq]
    rfl
  · rw [simRate_total]
    rfl

theorem olsSlope_nil : olsSlope [] = 0 := by
  simp [olsSlope]

theorem pround_zero (n : ℕ) : pround n 0 = 0 := by
  norm_num [pround, rhe]

/-- C8: on total curves `reverse_engineer_factors` never fails; when the
short set (tenors strictly below the pivot) is empty its factor is `0.0`
with no fit attempted, and symmetrically for the long set. -/
theorem c8_empty_side_factor_zero (b s : Tenor → ℚ) (p : Tenor) :
    isOkE (reverse_engineer_factors (totalCurve b) (totalCurve s) p) = true ∧
    (shortTenors p = [] →
      recFacS (reverse_engineer_factors (totalCurve b) (totalCurve s) p) = some (.fin 0)) ∧
    (longTenors p = [] →
      recFacL (reverse_engineer_factors (totalCurve b) (totalCurve s) p) = some (.fin 0)) := by
  refine ⟨?_, fun h => ?_, fun h => ?_⟩
  · rw [recover_total_eq]
    rfl
  · rw [recover_total_eq]
    simp [recFacS, Except.toOption, recoverTotal, shortPtsQ, h, olsSlope_nil, pround_zero]
  · rw [recover_total_eq]
    simp [recFacL, Except.toOption, recoverTotal, longPtsQ, h, olsSlope_nil, pround_zero]

/-- C8 witness: concrete total curves; at pivot 3M the short set is
empty and the recovered short factor is `0.0`, at pivot 7Y the long set
is empty and the recovered long factor is `0.0`; recovery succeeds. -/
theorem c8_empty_side_factor_zero_witness :
    isOkE (reverse_engineer_factors (totalCurve defaultBase) (totalCurve defaultBase) .t3M) = true ∧
    recFacS (reverse_engineer_factors (totalCurve defaultBase) (totalCurve defaultBase) .t3M) =
      some (.fin 0) ∧
    recFacL (reverse_engineer_factors (totalCurve defaultBase) (totalCurve defaultBase) .t7Y) =
      some (.fin 0) :=
  ⟨(c8_empty_side_factor_zero defaultBase defaultBase .t3M).1,
   (c8_empty_side_factor_zero defaultBase defaultBase .t3M).2.1
     (by norm_num [shortTenors, gridOrder, tenor_to_years]),
   (c8_empty_side_factor_zero defaultBase defaultBase .t7Y).2.2
     (by norm_num [longTenors, gridOrder, tenor_to_years])⟩

/-- C9: the recovered `shift_value` depends only on the two curves'
entries at the pivot: two recoveries agreeing at the pivot return the
same `shift_value`, namely `round(simulated[pivot] - base[pivot], 6)`. -/
theorem c9_shift_depends_only_on_pivot (b1 s1 b2 s2 : Tenor → ℚ) (p : Tenor)
    (hb : b1 p = b2 p) (hs : s1 p = s2 p) :
    recShiftV (reverse_engineer_factors (totalCurve b1) (totalCurve s1) p) =
      recShiftV (reverse_engineer_factors (totalCurve b2) (totalCurve s2) p) ∧
    recShiftV (reverse_engineer_factors (totalCurve b1) (totalCurve s1) p) =
      some (.fin (pround 6 (s1 p - b1 p))) := by
  constructor
  · rw [recover_total_eq, recover_total_eq]
    simp [recShiftV, Except.toOption, recoverTotal, hb, hs]
  · rw [recover_total_eq]
    simp [recShiftV, Except.toOption, recoverTotal]

/-- C9 witness: two recoveries whose curves agree at the pivot 2Y but
differ everywhere else return the same `shift_value`. -/
theorem c9_shift_depends_only_on_pivot_witness :
    recShiftV (reverse_engineer_factors (totalCurve defaultBase)
        (totalCurve (fun _ => 35/1000)) .t2Y) =
      recShiftV (reverse_engineer_factors (totalCurve (fun _ => 34/1000))
        (totalCurve (fun t => if t = .t2Y then 35/1000 else 99)) .t2Y) ∧
    recShiftV (reverse_engineer_factors (totalCurve defaultBase)
        (totalCurve (fun _ => 35/1000)) .t2Y) =
      some (.fin (pround 6 (35/1000 - defaultBase .t2Y))) :=
  c9_shift_depends_only_on_pivot defaultBase (fun _ => 35/1000)
    (fun _ => 34/1000) (fun t => if t = .t2Y then 35/1000 else 99) .t2Y
    (by norm_num [defaultBase]) (by norm_num)

/-- C10: a finite cap is only ever reported for a side holding at least
two tenors: with fewer than two grid tenors short of the pivot the
returned `short_end_cap` is `-inf`, and with fewer than two long of the
pivot the returned `long_end_cap` is `+inf`. -/
theorem c10_thin_side_caps (b s : Tenor → ℚ) (p : Tenor) :
    ((shortTenors p).length < 2 →
      recCapS (reverse_engineer_factors (totalCurve b) (totalCurve s) p) = some .ninf) ∧
    ((longTenors p).length < 2 →
      recCapL (reverse_engineer_factors (totalCurve b) (totalCurve s) p) = some .pinf) := by
  cases p <;> refine ⟨fun h => ?_, fun h => ?_⟩ <;>
    first
      | (rw [recover_total_eq]
         norm_num [recCapS, recCapL, Except.toOption, recoverTotal, shortCapVals, longCapVals,
           shortTenors, longTenors, gridOrder, tenor_to_years, counter, bump, firstOver1,
           List.find?, List.foldl, PF.round]
         done)
      | (exfalso
         revert h
         norm_num [shortTenors, longTenors, gridOrder, tenor_to_years]
         done)

/-- C10 witness: with pivot 6M (one short tenor) the short cap is `-inf`;
with pivot 5Y (one long tenor) the long cap is `+inf`. -/
theorem c10_thin_side_caps_witness :
    recCapS (reverse_engineer_factors (totalCurve defaultBase) (totalCurve defaultBase) .t6M) =
      some .ninf ∧
    recCapL (reverse_engineer_factors (totalCurve defaultBase) (totalCurve defaultBase) .t5Y) =
      some .pinf :=
  ⟨(c10_thin_side_caps defaultBase defaultBase .t6M).1 (by norm_num [shortTenors, gridOrder, tenor_to_years]),
   (c10_thin_side_caps defaultBase defaultBase .t5Y).2 (by norm_num [longTenors, gridOrder, tenor_to_years])⟩

theorem countOcc_append {α : Type} [DecidableEq α] (v w : α) (l : List α) :
    countOcc w (l ++ [v]) = countOcc w l + (if v = w then 1 else 0) := by
  unfold countOcc
  rw [List.filter_append, List.length_append]
  congr 1
  by_cases h : v = w <;> simp [h]

theorem countOcc_eq_zero {α : Type} [DecidableEq α] {v : α} {l : List α} (h : v ∉ l) :
    countOcc v l = 0 := by
  unfold countOcc
  rw [List.length_eq_zero]
  rw [List.filter_eq_nil_iff]
  intro x hx
  simp only [decide_eq_true_eq]
  intro he
  exact h (he ▸ hx)

theorem firstDedup_mem_aux {α : Type} [DecidableEq α] :
    ∀ (n : ℕ) (l : List α), l.length ≤ n → ∀ w, (w ∈ firstDedup l ↔ w ∈ l)
  | _, [], _, w => by simp [firstDedup]
  | 0, a :: t, h, w => by simp at h
  | n+1, a :: t, h, w => by
    rw [firstDedup]
    have ht : (t.filter (fun x => x ≠ a)).length ≤ n :=
      le_trans (List.length_filter_le _ _) (Nat.le_of_succ_le_succ h)
    rw [List.mem_cons, List.mem_cons, firstDedup_mem_aux n _ ht w, List.mem_filter]
    by_cases hw : w = a
    · simp [hw]
    · simp [hw]

theorem firstDedup_mem {α : Type} [DecidableEq α] (l : List α) (w : α) :
    w ∈ firstDedup l ↔ w ∈ l :=
  firstDedup_mem_aux l.length l (le_refl _) w

theorem firstDedup_nodup_aux {α : Type} [DecidableEq α] :
    ∀ (n : ℕ) (l : List α), l.length ≤ n → (firstDedup l).Nodup
  | _, [], _ => by simp [firstDedup]
  | 0, a :: t, h => by simp at h
  | n+1, a :: t, h => by
    rw [firstDedup]
    have ht : (t.filter (fun x => x ≠ a)).length ≤ n :=
      le_trans (List.length_filter_le _ _) (Nat.le_of_succ_le_succ h)
    refine List.Nodup.cons ?_ (firstDedup_nodup_aux n _ ht)
    intro hmem
    rw [firstDedup_mem] at hmem
    rcases List.mem_filter.mp hmem with ⟨_, hne⟩
    simp at hne

theorem firstDedup_nodup {α : Type} [DecidableEq α] (l : List α) : (firstDedup l).Nodup :=
  firstDedup_nodup_aux l.length l (le_refl _)

theorem firstDedup_append {α : Type} [DecidableEq α] (v : α) :
    ∀ (n : ℕ) (l : List α), l.length ≤ n →
      firstDedup (l ++ [v]) = if v ∈ l then firstDedup l else firstDedup l ++ [v]
  | _, [], _ => by simp [firstDedup]
  | 0, a :: t, h => by simp at h
  | n+1, a :: t, h => by
    have ht : (t.filter (fun x => x ≠ a)).length ≤ n :=
      le_trans (List.length_filter_le _ _) (Nat.le_of_succ_le_succ h)
    rw [List.cons_append, firstDedup, firstDedup, List.filter_append]
    by_cases hv : v = a
    · subst hv
      simp [List.mem_cons]
    · have h1 : ([v].filter (fun x => x ≠ a)) = [v] := by simp [hv]
      rw [h1, firstDedup_append v n _ ht]
      by_cases hvt : v ∈ t
      · rw [if_pos (List.mem_filter.mpr ⟨hvt, by simp [hv]⟩), if_pos (by simp [hvt])]
      · rw [if_neg (fun hc => hvt (List.mem_filter.mp hc).1),
          if_neg (by simp [hv, hvt]), List.cons_append]

theorem find?_filter_ne {α : Type} [DecidableEq α] {p : α → Bool} {a : α}
    (hpa : p a = false) : ∀ (l : List α),
      (l.filter (fun x => x ≠ a)).find? p = l.find? p
  | [] => rfl
  | b :: t => by
    have ih := find?_filter_ne hpa t
    by_cases hb : b = a
    · subst hb
      have h1 : (b :: t).filter (fun x => x ≠ b) = t.filter (fun x => x ≠ b) := by
        rw [List.filter_cons, if_neg (by simp)]
      rw [h1, ih, List.find?_cons, hpa]
    · have h1 : (b :: t).filter (fun x => x ≠ a) = b :: t.filter (fun x => x ≠ a) := by
        rw [List.filter_cons, if_pos (by simp [hb])]
      rw [h1, List.find?_cons, List.find?_cons]
      cases hpb : p b
      · rw [ih]
      · rfl

theorem firstDedup_find? {α : Type} [DecidableEq α] (p : α → Bool) :
    ∀ (n : ℕ) (l : List α), l.length ≤ n → (firstDedup l).find? p = l.find? p
  | _, [], _ => by simp [firstDedup]
  | 0, a :: t, h => by simp at h
  | n+1, a :: t, h => by
    have ht : (t.filter (fun x => x ≠ a)).length ≤ n :=
      le_trans (List.length_filter_le _ _) (Nat.le_of_succ_le_succ h)
    rw [firstDedup, List.find?_cons, List.find?_cons]
    cases hpa : p a
    · rw [firstDedup_find? p n _ ht, find?_filter_ne hpa]
    · rfl

theorem bump_not_mem {α : Type} [DecidableEq α] {m : List (α × ℕ)} {v : α}
    (h : v ∉ m.map Prod.fst) : bump m v = m ++ [(v, 1)] := by
  induction m with
  | nil => rfl
  | cons kc rest ih =>
    rw [List.map_cons, List.mem_cons] at h
    push_neg at h
    rw [bump, if_neg (fun he => h.1 he.symm), ih h.2, List.cons_append]

theorem bump_mem {α : Type} [DecidableEq α] {m : List (α × ℕ)} {v : α}
    (h : v ∈ m.map Prod.fst) (hn : (m.map Prod.fst).Nodup) :
    bump m v = m.map (fun kc => if kc.1 = v then (kc.1, kc.2 + 1) else kc) := by
  induction m with
  | nil => simp at h
  | cons kc rest ih =>
    rw [List.map_cons, List.nodup_cons] at hn
    rw [List.map_cons, List.mem_cons] at h
    by_cases he : kc.1 = v
    · rw [bump, if_pos he, List.map_cons, if_pos he]
      have hrest : ∀ x ∈ rest, (if x.1 = v then (x.1, x.2 + 1) else x) = id x := by
        intro x hx
        rw [if_neg, id_eq]
        intro hxv
        apply hn.1
        rw [he, ← hxv]
        exact List.mem_map_of_mem Prod.fst hx
      rw [List.map_congr_left hrest, List.map_id]
    · have hv : v ∈ rest.map Prod.fst := by
        rcases h with h | h
        · exact absurd h.symm he
        · exact h
      rw [bump, if_neg he, List.map_cons, if_neg he, ih hv hn.2]

theorem counter_append {α : Type} [DecidableEq α] (l : List α) (v : α) :
    counter (l ++ [v]) = bump (counter l) v := by
  rw [counter, counter, List.foldl_append]
  rfl

theorem counter_eq {α : Type} [DecidableEq α] (l : List α) :
    counter l = (firstDedup l).map (fun v => (v, countOcc v l)) := by
  induction l using List.reverseRecOn with
  | nil => simp [counter, firstDedup, List.foldl]
  | append_singleton t v ih =>
    rw [counter_append, ih, firstDedup_append v t.length t (le_refl _)]
    have hkeys : ((firstDedup t).map (fun w => (w, countOcc w t))).map Prod.fst = firstDedup t := by
      rw [List.map_map]
      conv_rhs => rw [← List.map_id (firstDedup t)]
      apply List.map_congr_left
      intro x _
      rfl
    by_cases hv : v ∈ t
    · rw [if_pos hv]
      have hmem : v ∈ ((firstDedup t).map (fun w => (w, countOcc w t))).map Prod.fst := by
        rw [hkeys, firstDedup_mem]
        exact hv
      have hnd : (((firstDedup t).map (fun w => (w, countOcc w t))).map Prod.fst).Nodup := by
        rw [hkeys]
        exact firstDedup_nodup t
      rw [bump_mem hmem hnd, List.map_map]
      apply List.map_congr_left
      intro w hw
      simp only [Function.comp]
      rw [countOcc_append]
      by_cases hwv : w = v
      · rw [if_pos hwv, if_pos (hwv ▸ rfl)]
      · rw [if_neg hwv, if_neg (fun hc => hwv hc.symm), Nat.add_zero]
    · rw [if_neg hv]
      have hmem : v ∉ ((firstDedup t).map (fun w => (w, countOcc w t))).map Prod.fst := by
        rw [hkeys, firstDedup_mem]
        exact hv
      rw [bump_not_mem hmem, List.map_append]
      congr 1
      · apply List.map_congr_left
        intro w hw
        rw [countOcc_append, if_neg, Nat.add_zero]
        intro he
        exact hv (he ▸ (firstDedup_mem t w).mp hw)
      · rw [List.map_singleton, countOcc_append, if_pos rfl,
          countOcc_eq_zero hv]

/-- The `defaultdict` counting pass followed by the first-repeat scan
computes exactly the first value of the list that occurs more than
once. -/
theorem firstOver1_counter {α : Type} [DecidableEq α] (l : List α) :
    firstOver1 (counter l) = firstRepeated l := by
  rw [counter_eq, firstOver1, List.find?_map, Option.map_map]
  show (((firstDedup l).find? (fun v => 1 < countOcc v l)).map (fun v => v)) = firstRepeated l
  rw [firstDedup_find? _ l.length l (le_refl _)]
  rw [firstRepeated]
  cases l.find? (fun v => 1 < countOcc v l) <;> rfl

@[simp] theorem PF.pymax_ninf (a : PF) : PF.pymax a .ninf = a := by
  cases a <;> rfl

@[simp] theorem PF.pymin_pinf (a : PF) : PF.pymin a .pinf = a := by
  cases a <;> rfl

/-- C3 amended: the returned `short_end_cap` is the 6-digit rounding of
the first (in the curve's iteration order) value
`round(simulatedCurve[t] - baseCurve[pivotTenor], 8)` that occurs more
than once among tenors strictly short of the pivot (`-inf` when no value
repeats), and `long_end_cap` is the analogous value among the long
tenors (`+inf` otherwise). -/
theorem c3_caps_first_repeated (b s : Tenor → ℚ) (p : Tenor) :
    recCapS (reverse_engineer_factors (totalCurve b) (totalCurve s) p) =
      some (PF.round 6 ((firstRepeated (shortCapVals b s p)).getD .ninf)) ∧
    recCapL (reverse_engineer_factors (totalCurve b) (totalCurve s) p) =
      some (PF.round 6 ((firstRepeated (longCapVals b s p)).getD .pinf)) := by
  constructor <;> rw [recover_total_eq] <;>
    simp [recCapS, recCapL, Except.toOption, recoverTotal, firstOver1_counter]

/-- C3 counterexample: with a zero base curve and a simulated curve
whose repeated short-end 8-digit-rounded actual change is
`0.00000034`, the returned `short_end_cap` is `0.0` (the 6-digit
rounding of that value), not the repeated value itself as the claim
states. -/
theorem c3_counterexample :
    recCapS (reverse_engineer_factors (totalCurve zeroCurve) (totalCurve c3sim) .t2Y) =
      some (.fin 0) ∧
    firstRepeated (shortCapVals zeroCurve c3sim .t2Y) = some (.fin (34/100000000)) ∧
    (PF.fin 0 : PF) ≠ .fin (34/100000000) := by
  have hvals : shortCapVals zeroCurve c3sim .t2Y =
      [.fin (34/100000000), .fin (34/100000000), .fin (1/10)] := by
    norm_num [shortCapVals, shortTenors, gridOrder, tenor_to_years, zeroCurve, c3sim,
      pround, rhe]
  have hrep : firstRepeated (shortCapVals zeroCurve c3sim .t2Y) =
      some (.fin (34/100000000)) := by
    rw [hvals]
    norm_num [firstRepeated, countOcc, List.find?, List.filter]
  refine ⟨?_, hrep, by norm_num⟩
  rw [recover_total_eq]
  simp only [recCapS, Except.toOption, recoverTotal]
  rw [firstOver1_counter, hrep]
  norm_num [pround, rhe]

theorem curveOfItems_grid (f : Tenor → PF) :
    curveOfItems (gridOrder.map (fun t => (t, f t))) = fun t => some (f t) := by
  funext t
  cases t <;> simp [curveOfItems, lookupT, gridOrder]

/-- C2 amended: feeding an uncapped simulation (`shortEndCap = -inf`,
`longEndCap = +inf`) back into recovery reproduces the shift —
`shift_value` is within `1e-6` of `s` for every base curve, pivot and
finite parameters.  The factor and cap components are not reproduced in
general: the regression response is measured against the *pivot's* base
rate, so the base curve's own shape enters the fitted slopes, and
coincidentally equal actual changes yield finite caps (see the
counterexample). -/
theorem c2_roundtrip_shift (b : Tenor → ℚ) (p : Tenor) (s fs fl : ℚ)
    (items : List (Tenor × PF))
    (h : simulate_yield_curve (totalCurve b) p (.fin s) (.fin fs) (.fin fl) .ninf .pinf =
      .ok items) :
    ∃ q : ℚ,
      recShiftV (reverse_engineer_factors (totalCurve b) (curveOfItems items) p) =
        some (.fin q) ∧
      |q - s| ≤ 1/1000000 := by
  rw [simulate_total_eq] at h
  injection h with h'
  subst h'
  have hmap : (gridOrder.map (fun t => (t, PF.round 6 (
      if t = p then .fin (b p) + .fin s
      else if tenor_to_years t < tenor_to_years p then
        .fin (b t) + PF.pymax (.fin s + .fin (tenor_to_years t - tenor_to_years p) * .fin fs) .ninf
      else
        .fin (b t) + PF.pymin (.fin s + .fin (tenor_to_years t - tenor_to_years p) * .fin fl) .pinf)))) =
      gridOrder.map (fun t => (t, PF.fin (pround 6 (
        if t = p then b p + s
        else if tenor_to_years t < tenor_to_years p then
          b t + (s + (tenor_to_years t - tenor_to_years p) * fs)
        else
          b t + (s + (tenor_to_years t - tenor_to_years p) * fl))))) := by
    apply List.map_congr_left
    intro t _
    by_cases h1 : t = p
    · simp [h1]
    · by_cases h2 : tenor_to_years t < tenor_to_years p <;> simp [h1, h2]
  rw [hmap, curveOfItems_grid]
  show ∃ q : ℚ,
    recShiftV (reverse_engineer_factors (totalCurve b) (totalCurve (fun t => pround 6 (
      if t = p then b p + s
      else if tenor_to_years t < tenor_to_years p then
        b t + (s + (tenor_to_years t - tenor_to_years p) * fs)
      else
        b t + (s + (tenor_to_years t - tenor_to_years p) * fl)))) p) = some (.fin q) ∧
    |q - s| ≤ 1/1000000
  rw [recover_total_eq]
  refine ⟨pround 6 (pround 6 (b p + s) - b p), ?_, ?_⟩
  · simp [recShiftV, Except.toOption, recoverTotal]
  · have h1 := abs_pround_sub_le 6 (b p + s)
    have h2 := abs_pround_sub_le 6 (pround 6 (b p + s) - b p)
    have h3 : (pround 6 (b p + s) - b p) - s = pround 6 (b p + s) - (b p + s) := by ring
    calc |pround 6 (pround 6 (b p + s) - b p) - s|
        ≤ |pround 6 (pround 6 (b p + s) - b p) - (pround 6 (b p + s) - b p)| +
            |(pround 6 (b p + s) - b p) - s| := abs_sub_le _ _ _
      _ ≤ 1 / (2 * 10 ^ 6) + 1 / (2 * 10 ^ 6) := by
          rw [h3]
          exact add_le_add h2 h1
      _ ≤ 1/1000000 := by norm_num

/-- C2 witness: concrete uncapped round trip at the default base curve,
pivot 2Y, shift `0.001`. -/
theorem c2_roundtrip_shift_witness :
    ∃ q : ℚ,
      recShiftV (reverse_engineer_factors (totalCurve defaultBase) (curveOfItems
        [(.t3M, .fin (275/10000)), (.t6M, .fin (29/1000)), (.t1Y, .fin (31/1000)),
         (.t2Y, .fin (35/1000)), (.t3Y, .fin (40/1000)), (.t4Y, .fin (45/1000)),
         (.t5Y, .fin (51/1000)), (.t7Y, .fin (61/1000))]) .t2Y) = some (.fin q) ∧
      |q - 1/1000| ≤ 1/1000000 :=
  c2_roundtrip_shift defaultBase .t2Y (1/1000) (2/1000) (3/1000) _
    (by
      rw [simulate_total_eq]
      norm_num [gridOrder, tenor_to_years, defaultBase, pround, rhe]
      simp
      norm_num [pround, rhe])

/-- C2 counterexample: with base curve `c2base`, pivot 2Y and parameters
`s = 0`, `f_short = 0`, `f_long = 0`, caps `-inf`/`+inf`, the simulated
curve equals the base curve, yet recovery returns `short_end_factor =
0.002857` (not within `1e-6` of `0` — the base curve's own slope leaks
into the regression) and `short_end_cap = -0.004` (not `-inf` — the two
equal short-end actual changes look like a cap). -/
theorem c2_counterexample :
    simulate_yield_curve (totalCurve c2base) .t2Y (.fin 0) (.fin 0) (.fin 0) .ninf .pinf =
      .ok (gridOrder.map (fun t => (t, .fin (c2base t)))) ∧
    recFacS (reverse_engineer_factors (totalCurve c2base)
      (curveOfItems (gridOrder.map (fun t => (t, .fin (c2base t))))) .t2Y) =
      some (.fin (2857/1000000)) ∧
    ¬(|(2857/1000000 : ℚ) - 0| ≤ 1/1000000) ∧
    recCapS (reverse_engineer_factors (totalCurve c2base)
      (curveOfItems (gridOrder.map (fun t => (t, .fin (c2base t))))) .t2Y) =
      some (.fin (-1/250)) ∧
    (PF.fin (-1/250) : PF) ≠ .ninf := by
  have hcur : curveOfItems (gridOrder.map (fun t => (t, PF.fin (c2base t)))) =
      totalCurve c2base := by
    rw [curveOfItems_grid]
    rfl
  refine ⟨?_, ?_, ?_, ?_, by simp⟩
  · rw [simulate_total_eq]
    apply congrArg
    apply List.map_congr_left
    intro t _
    cases t <;> simp [tenor_to_years, c2base] <;> norm_num [pround, rhe]
  · rw [hcur, recover_total_eq]
    simp only [recFacS, Except.toOption, recoverTotal, Option.map_some]
    norm_num [shortPtsQ, shortTenors, gridOrder, tenor_to_years, impliedY, c2base,
      olsSlope, pround, rhe]
  · rw [sub_zero, abs_of_pos (by norm_num : (0:ℚ) < 2857/1000000)]
    norm_num
  · rw [hcur, recover_total_eq]
    simp only [recCapS, Except.toOption, recoverTotal, Option.map_some]
    rw [firstOver1_counter]
    have hf1 : Int.fract ((-400000 : ℚ)) = 0 := by norm_num
    have hf2 : Int.fract ((-200000 : ℚ)) = 0 := by norm_num
    have hvals : shortCapVals c2base c2base .t2Y =
        [.fin (-1/250), .fin (-1/250), .fin (-1/500)] := by
      norm_num [shortCapVals, shortTenors, gridOrder, tenor_to_years, c2base, pround, rhe,
        hf1, hf2]
    rw [hvals]
    norm_num [firstRepeated, countOcc, List.find?, List.filter, pround, rhe]

theorem isOkE_seqE {α : Type} (l : List (Except Err α)) :
    isOkE (seqE l) = true ↔ ∀ e ∈ l, isOkE e = true := by
  induction l with
  | nil => simp [seqE, isOkE]
  | cons e es ih =>
    cases e with
    | error z => simp [seqE, isOkE]
    | ok a =>
      rw [seqE_ok_cons]
      cases hs : seqE es with
      | error z =>
        simp only [hs, List.forall_mem_cons] at ih ⊢
        simp [isOkE] at ih ⊢
        tauto
      | ok bs =>
        simp only [hs, List.forall_mem_cons] at ih ⊢
        simp [isOkE] at ih ⊢
        tauto

theorem seqE_ok_mem {α : Type} {l : List (Except Err α)} {out : List α}
    (h : seqE l = .ok out) : ∀ a ∈ out, Except.ok a ∈ l := by
  induction l generalizing out with
  | nil =>
    rw [seqE_nil] at h
    injection h with h'
    subst h'
    simp
  | cons e es ih =>
    cases e with
    | error z =>
      rw [seqE_error_cons] at h
      exact absurd h (by simp)
    | ok b =>
      rw [seqE_ok_cons] at h
      cases hs : seqE es with
      | error z =>
        simp only [hs] at h
        exact absurd h (by simp)
      | ok bs =>
        simp only [hs] at h
        injection h with h'
        subst h'
        intro a ha
        rcases List.mem_cons.mp ha with rfl | ha'
        · exact List.mem_cons_self _ _
        · exact List.mem_cons_of_mem _ (ih hs a ha')

theorem seqO_isSome {α : Type} (l : List (Option α)) :
    (seqO l).isSome = true ↔ ∀ o ∈ l, o.isSome = true := by
  induction l with
  | nil => simp [seqO]
  | cons o os ih =>
    cases o with
    | none => simp [seqO]
    | some a => simp [seqO, ih]

theorem mem_gridOrder (t : Tenor) : t ∈ gridOrder := by
  cases t <;> simp [gridOrder]

theorem curveItems_pcurve_mem {f : Tenor → Option ℚ} {tr : Tenor × PF} :
    tr ∈ curveItems (pcurve f) ↔ pcurve f tr.1 = some tr.2 := by
  rw [curveItems, List.mem_filterMap]
  constructor
  · rintro ⟨t, _, ht⟩
    rcases Option.map_eq_some'.mp ht with ⟨r, hr, he⟩
    rw [← he]
    exact hr
  · intro h
    exact ⟨tr.1, mem_gridOrder _, by rw [h]; rfl⟩

theorem simulate_ok_iff (f : Tenor → Option ℚ) (p : Tenor) (sv sef lef sec lec : PF) :
    isOkE (simulate_yield_curve (pcurve f) p sv sef lef sec lec) = true ↔
      (f p).isSome = true := by
  cases hfp : f p <;> simp [simulate_yield_curve, pcurve, hfp, isOkE]

theorem recover_ok_iff (f g : Tenor → Option ℚ) (p : Tenor) :
    isOkE (reverse_engineer_factors (pcurve f) (pcurve g) p) = true ↔
      ((f p).isSome = true ∧ (g p).isSome = true ∧
        ∀ t, t ≠ p → (f t).isSome = true → (g t).isSome = true) := by
  cases hfp : f p with
  | none =>
    have hfp2 : pcurve f p = none := by simp [pcurve, hfp]
    simp [reverse_engineer_factors, hfp2, hfp, isOkE]
  | some bq =>
  cases hgp : g p with
  | none =>
    have hfp2 : pcurve f p = some (.fin bq) := by simp [pcurve, hfp]
    have hgp2 : pcurve g p = none := by simp [pcurve, hgp]
    simp [reverse_engineer_factors, hfp2, hgp2, hgp, isOkE]
  | some sq =>
  have hfp2 : pcurve f p = some (.fin bq) := by simp [pcurve, hfp]
  have hgp2 : pcurve g p = some (.fin sq) := by simp [pcurve, hgp]
  simp only [reverse_engineer_factors, hfp2, hgp2]
  cases hs : seqE (List.map (fun tr => dget (pcurve g) tr.1)
      (List.filter (fun tr => decide (tr.1 ≠ p)) (curveItems (pcurve f)))) with
  | error z =>
    simp only [hs, isOkE]
    constructor
    · intro h
      exact absurd h (by simp)
    · rintro ⟨-, -, hall⟩
      exfalso
      have hok : isOkE (seqE (List.map (fun tr => dget (pcurve g) tr.1)
          (List.filter (fun tr => decide (tr.1 ≠ p)) (curveItems (pcurve f))))) = true := by
        rw [isOkE_seqE]
        intro e he
        rcases List.mem_map.mp he with ⟨tr, htr, rfl⟩
        have h1 := (List.mem_filter.mp htr).1
        have h2 := (List.mem_filter.mp htr).2
        have hft : ∃ q, f tr.1 = some q := by
          have h3 := curveItems_pcurve_mem.mp h1
          simp only [pcurve] at h3
          rcases Option.map_eq_some'.mp h3 with ⟨q, hq, _⟩
          exact ⟨q, hq⟩
        rcases hft with ⟨q, hq⟩
        have hne : tr.1 ≠ p := by simpa using h2
        have hgt := hall tr.1 hne (by simp [hq])
        rcases Option.isSome_iff_exists.mp hgt with ⟨w, hw⟩
        simp [dget, pcurve, hw, isOkE]
      rw [hs] at hok
      simp [isOkE] at hok
  | ok simRates =>
    have hallg : ∀ t, t ≠ p → (f t).isSome = true → (g t).isSome = true := by
      intro t htp hft
      rcases Option.isSome_iff_exists.mp hft with ⟨q, hq⟩
      have hmem : (t, PF.fin q) ∈ curveItems (pcurve f) :=
        curveItems_pcurve_mem.mpr (by simp [pcurve, hq])
      have hmem2 : (t, PF.fin q) ∈
          List.filter (fun tr => decide (tr.1 ≠ p)) (curveItems (pcurve f)) :=
        List.mem_filter.mpr ⟨hmem, by simp [htp]⟩
      have hmem3 : dget (pcurve g) t ∈ List.map (fun tr => dget (pcurve g) tr.1)
          (List.filter (fun tr => decide (tr.1 ≠ p)) (curveItems (pcurve f))) :=
        List.mem_map.mpr ⟨(t, .fin q), hmem2, rfl⟩
      have hok : isOkE (dget (pcurve g) t) = true := by
        have h1 : isOkE (seqE (List.map (fun tr => dget (pcurve g) tr.1)
            (List.filter (fun tr => decide (tr.1 ≠ p)) (curveItems (pcurve f))))) = true := by
          rw [hs]
          rfl
        exact (isOkE_seqE _).mp h1 _ hmem3
      cases hgt : g t with
      | none => simp [dget, pcurve, hgt, isOkE] at hok
      | some _ => simp
    have hfin_sim : ∀ a ∈ simRates, ∃ q : ℚ, a = .fin q := by
      intro a ha
      have h1 := seqE_ok_mem hs a ha
      rcases List.mem_map.mp h1 with ⟨tr, _, hd⟩
      cases hgt : g tr.1 with
      | none => simp [dget, pcurve, hgt] at hd
      | some q =>
        simp only [dget, pcurve, hgt, Option.map_some] at hd
        injection hd with hd'
        exact ⟨q, hd'.symm⟩
    have hsoS : (seqO (List.map
        (fun r => Option.map (fun y => (tenor_to_years r.1.1 - tenor_to_years p, y))
          (finQ (r.2 - (PF.fin bq + (PF.fin sq - PF.fin bq)))))
        (List.filter (fun r => decide (tenor_to_years r.1.1 < tenor_to_years p))
          ((List.filter (fun tr => decide (tr.1 ≠ p)) (curveItems (pcurve f))).zip
            simRates)))).isSome = true := by
      rw [seqO_isSome]
      intro o ho
      rcases List.mem_map.mp ho with ⟨r, hr, rfl⟩
      have hrz : r.2 ∈ simRates := by
        have hm := (List.mem_filter.mp hr).1
        have := List.of_mem_zip (a := r.1) (b := r.2) (by simpa using hm)
        exact this.2
      rcases hfin_sim _ hrz with ⟨q, hq⟩
      rw [hq]
      rfl
    have hsoL : (seqO (List.map
        (fun r => Option.map (fun y => (tenor_to_years r.1.1 - tenor_to_years p, y))
          (finQ (r.2 - (PF.fin bq + (PF.fin sq - PF.fin bq)))))
        (List.filter (fun r => decide ¬tenor_to_years r.1.1 < tenor_to_years p)
          ((List.filter (fun tr => decide (tr.1 ≠ p)) (curveItems (pcurve f))).zip
            simRates)))).isSome = true := by
      rw [seqO_isSome]
      intro o ho
      rcases List.mem_map.mp ho with ⟨r, hr, rfl⟩
      have hrz : r.2 ∈ simRates := by
        have hm := (List.mem_filter.mp hr).1
        have := List.of_mem_zip (a := r.1) (b := r.2) (by simpa using hm)
        exact this.2
      rcases hfin_sim _ hrz with ⟨q, hq⟩
      rw [hq]
      rfl
    rcases Option.isSome_iff_exists.mp hsoS with ⟨spts, hspts⟩
    rcases Option.isSome_iff_exists.mp hsoL with ⟨lpts, hlpts⟩
    simp only [hspts, hlpts, isOkE]
    constructor
    · intro _
      exact ⟨by simp, by simp, hallg⟩
    · intro _
      trivial

/-- C4 amended: no `MissingTenorError` exists in the code; failures are
key-lookup errors with a narrower trigger than the claim states.
`simulate_yield_curve` fails exactly when the base curve omits the
*pivot* tenor — a base curve omitting only non-pivot grid tenors
produces a result over the supplied tenors.  `reverse_engineer_factors`
fails exactly when a pivot rate is missing from either curve or the
simulated curve omits a non-pivot tenor supplied in the base curve; a
base curve omitting non-pivot tenors does not make it fail. -/
theorem c4_missing_tenor_behavior (f g : Tenor → Option ℚ) (p : Tenor)
    (sv sef lef sec lec : PF) :
    (isOkE (simulate_yield_curve (pcurve f) p sv sef lef sec lec) = true ↔
      (f p).isSome = true) ∧
    (isOkE (reverse_engineer_factors (pcurve f) (pcurve g) p) = true ↔
      ((f p).isSome = true ∧ (g p).isSome = true ∧
        ∀ t, t ≠ p → (f t).isSome = true → (g t).isSome = true)) :=
  ⟨simulate_ok_iff f p sv sef lef sec lec, recover_ok_iff f g p⟩

/-- C4 witness: the amended characterisation at a base curve omitting
3M, a total simulated curve and pivot 2Y. -/
theorem c4_missing_tenor_behavior_witness :
    (isOkE (simulate_yield_curve (pcurve c4missing) .t2Y
        (.fin (1/1000)) (.fin 0) (.fin 0) .ninf .pinf) = true ↔
      (c4missing .t2Y).isSome = true) ∧
    (isOkE (reverse_engineer_factors (pcurve c4missing)
        (pcurve (fun t => some (defaultBase t))) .t2Y) = true ↔
      ((c4missing .t2Y).isSome = true ∧
        ((fun t => some (defaultBase t)) .t2Y).isSome = true ∧
        ∀ t, t ≠ .t2Y → (c4missing t).isSome = true →
          ((fun t => some (defaultBase t)) t).isSome = true)) :=
  c4_missing_tenor_behavior c4missing (fun t => some (defaultBase t)) .t2Y
    (.fin (1/1000)) (.fin 0) (.fin 0) .ninf .pinf

/-- C4 counterexample: with the base curve omitting the 3M grid tenor
(and pivot 2Y), `simulate_yield_curve` returns a seven-point curve
rather than failing, and `reverse_engineer_factors` returns a result
rather than failing. -/
theorem c4_counterexample :
    simulate_yield_curve (pcurve c4missing) .t2Y
        (.fin (1/1000)) (.fin 0) (.fin 0) .ninf .pinf =
      .ok [(.t6M, .fin (32/1000)), (.t1Y, .fin (33/1000)), (.t2Y, .fin (35/1000)),
           (.t3Y, .fin (37/1000)), (.t4Y, .fin (39/1000)), (.t5Y, .fin (42/1000)),
           (.t7Y, .fin (46/1000))] ∧
    isOkE (reverse_engineer_factors (pcurve c4missing)
        (pcurve (fun t => some (defaultBase t))) .t2Y) = true := by
  constructor
  · simp [simulate_yield_curve, curveItems, gridOrder, pcurve, c4missing, defaultBase,
      tenor_to_years]
    norm_num [pround, rhe]
  · exact (recover_ok_iff c4missing (fun t => some (defaultBase t)) .t2Y).mpr
      ⟨by simp [c4missing], rfl, fun t _ _ => rfl⟩
